import Mathlib

set_option maxRecDepth 100000

namespace WhatsAppChat

/-! Shallow embedding of `models/preprocessor.py` from the WhatsApp chat
analysis repository.  Text is modelled as `List Char`; the regular
expressions appearing literally in the source are compiled by hand into a
small regex syntax whose matcher reproduces Python's leftmost,
priority-ordered (greedy with backtracking) matching discipline. -/

/-- The ASCII characters matched by Python's regex class \s. -/
def pySpace (c : Char) : Bool :=
  c == ' ' || c == '\t' || c == '\n' || c == '\r' || c == '\x0b' || c == '\x0c'

/-- Regular-expression syntax: empty string, single-character class,
concatenation, prioritized alternation (left branch tried first, as in
Python's backtracking engine) and greedy Kleene star. -/
inductive RE where
  | eps : RE
  | cls : (Char → Bool) → RE
  | seq : RE → RE → RE
  | alt : RE → RE → RE
  | star : RE → RE

/-- Number of constructors of a regex, used to size the fuel of the
matcher. -/
def RE.size : RE → Nat
  | .eps => 1
  | .cls _ => 1
  | .seq a b => a.size + b.size + 1
  | .alt a b => a.size + b.size + 1
  | .star a => a.size + 1

/-- Backtracking matcher in continuation-passing style.  `reM f r s k`
tries to match `r` against a prefix of `s` and passes the remaining
suffix to `k`; alternatives are explored in priority order, so the first
`some` produced corresponds to the match Python's engine would commit to.
The fuel `f` decreases at every step, making the recursion structural;
`(RE.size r + 1) * (s.length + 2)` exceeds the call depth of every
pattern of the source on every input, so the fuel-exhaustion branch is
never taken by `reMatch`. -/
def reM : Nat → RE → List Char → (List Char → Option (List Char)) →
    Option (List Char)
  | 0, _, _, _ => none
  | _ + 1, .eps, s, k => k s
  | _ + 1, .cls _, [], _ => none
  | _ + 1, .cls p, c :: t, k => if p c then k t else none
  | f + 1, .seq a b, s, k => reM f a s (fun s1 => reM f b s1 k)
  | f + 1, .alt a b, s, k =>
    match reM f a s k with
    | some r1 => some r1
    | none => reM f b s k
  | f + 1, .star a, s, k =>
    match reM f a s (fun s1 => reM f (.star a) s1 k) with
    | some r1 => some r1
    | none => k s

/-- First (highest-priority) match of `r` against a prefix of `s`,
returning the remaining suffix, exactly the match Python's engine
produces when anchored at the start of `s`. -/
def reMatch (r : RE) (s : List Char) : Option (List Char) :=
  reM ((RE.size r + 1) * (s.length + 2)) r s (fun rest => some rest)

/-- Python's `re.search`: does `r` match starting at some position of `s`? -/
def reSearch (r : RE) (s : List Char) : Bool :=
  match s with
  | [] => (reMatch r []).isSome
  | _ :: t => (reMatch r s).isSome || reSearch r t

/-- One left-to-right scan of `s`, simultaneously producing the pieces of
Python's `re.split(r, s)` and the matches of `re.findall(r, s)` (the
patterns of the source contain no capturing groups, so `findall` returns
full match texts).  `acc` holds the current piece, reversed.  An empty
match is treated as no match; every pattern used in the source consumes
at least one character, so this agrees with Python on all inputs fed to
it.  The fuel exceeds `s.length`, and every step either finishes or
shortens `s`, so the fuel-exhaustion branch is never taken by the
wrappers below. -/
def reScan (r : RE) : Nat → List Char → List Char →
    List (List Char) × List (List Char)
  | 0, acc, s => ([acc.reverse ++ s], [])
  | _ + 1, acc, [] => ([acc.reverse], [])
  | f + 1, acc, c :: t =>
    match reMatch r (c :: t) with
    | some rest =>
      if rest.length < (c :: t).length then
        let res := reScan r f [] rest
        (acc.reverse :: res.1,
         (c :: t).take ((c :: t).length - rest.length) :: res.2)
      else reScan r f (c :: acc) t
    | none => reScan r f (c :: acc) t

/-- Python's `re.split(r, s)` for a groupless pattern. -/
def reSplitPy (r : RE) (s : List Char) : List (List Char) :=
  (reScan r (s.length + 1) [] s).1

/-- Python's `re.findall(r, s)` for a groupless pattern. -/
def reFindallPy (r : RE) (s : List Char) : List (List Char) :=
  (reScan r (s.length + 1) [] s).2

/-! Regex building blocks for the concrete patterns of the source. -/

/-- `\d` (ASCII digits, as matched on this data). -/
def dcl : RE := .cls Char.isDigit

/-- `\s`. -/
def wcl : RE := .cls pySpace

/-- A literal character. -/
def lch (c : Char) : RE := .cls (fun x => x == c)

/-- Concatenation of a list of regexes. -/
def rcat (l : List RE) : RE := l.foldr RE.seq RE.eps

/-- Greedy `r?`. -/
def ropt (r : RE) : RE := .alt r .eps

/-- Greedy `r+`. -/
def rplus (r : RE) : RE := .seq r (.star r)

/-- `\d{1,2}` (greedy: two digits preferred). -/
def d1to2 : RE := .seq dcl (ropt dcl)

/-- `\d{2}`. -/
def d2 : RE := .seq dcl dcl

/-- `\d{4}`. -/
def d4 : RE := rcat [dcl, dcl, dcl, dcl]

/-- `\d{2,4}` (greedy: 4, then 3, then 2). -/
def d2to4 : RE := rcat [dcl, dcl, ropt (.seq dcl (ropt dcl))]

/-- `\d{1,4}` (greedy: 4, 3, 2, 1). -/
def d1to4 : RE := .seq dcl (ropt (.seq dcl (ropt (.seq dcl (ropt dcl)))))

/-- `(?:AM|PM)`. -/
def ampmRE : RE := .alt (.seq (lch 'A') (lch 'M')) (.seq (lch 'P') (lch 'M'))

/-! The eight timestamp patterns of preprocessor.py lines 36-43, compiled
from their regex source text. -/

/-- `\d{1,2}/\d{1,2}/\d{2,4},\s\d{1,2}:\d{2}\s(?:AM|PM)\s-\s` -/
def pattern_12h_1 : RE :=
  rcat [d1to2, lch '/', d1to2, lch '/', d2to4, lch ',', wcl,
        d1to2, lch ':', d2, wcl, ampmRE, wcl, lch '-', wcl]

/-- `\d{1,2}/\d{1,2}/\d{2,4}\s\d{1,2}:\d{2}\s(?:AM|PM)\s-\s` -/
def pattern_12h_2 : RE :=
  rcat [d1to2, lch '/', d1to2, lch '/', d2to4, wcl,
        d1to2, lch ':', d2, wcl, ampmRE, wcl, lch '-', wcl]

/-- `\d{1,2}/\d{1,2}/\d{2,4},\s\d{1,2}:\d{2}\s-\s` -/
def pattern_24h_1 : RE :=
  rcat [d1to2, lch '/', d1to2, lch '/', d2to4, lch ',', wcl,
        d1to2, lch ':', d2, wcl, lch '-', wcl]

/-- `\d{1,2}/\d{1,2}/\d{2,4}\s\d{1,2}:\d{2}\s-\s` -/
def pattern_24h_2 : RE :=
  rcat [d1to2, lch '/', d1to2, lch '/', d2to4, wcl,
        d1to2, lch ':', d2, wcl, lch '-', wcl]

/-- `\[\d{1,2}/\d{1,2}/\d{2,4},\s\d{1,2}:\d{2}:\d{2}\]\s` -/
def pattern_24h_3 : RE :=
  rcat [lch '[', d1to2, lch '/', d1to2, lch '/', d2to4, lch ',', wcl,
        d1to2, lch ':', d2, lch ':', d2, lch ']', wcl]

/-- `\d{1,2}/\d{1,2}/\d{4},\s\d{1,2}:\d{2}\s-\s` -/
def pattern_24h_4 : RE :=
  rcat [d1to2, lch '/', d1to2, lch '/', d4, lch ',', wcl,
        d1to2, lch ':', d2, wcl, lch '-', wcl]

/-- `\d{4}-\d{2}-\d{2}\s\d{1,2}:\d{2}:\d{2}\s-\s` -/
def pattern_iso : RE :=
  rcat [d4, lch '-', d2, lch '-', d2, wcl,
        d1to2, lch ':', d2, lch ':', d2, wcl, lch '-', wcl]

/-- `\d{1,2}\.\d{1,2}\.\d{2,4},\s\d{1,2}:\d{2}\s-\s` -/
def pattern_euro : RE :=
  rcat [d1to2, lch '.', d1to2, lch '.', d2to4, lch ',', wcl,
        d1to2, lch ':', d2, wcl, lch '-', wcl]

/-- The permissive catch-all pattern of line 99:
`[\[\(]?(?:\d{1,4}[\/\.-]){2}\d{1,4}(?:[,\s])+\d{1,2}:\d{1,2}(?::\d{1,2})?(?:\s*[aApP][mM])?[\]\)]?\s*[^\n]+` -/
def generic_pattern : RE :=
  rcat [ropt (.cls (fun c => c == '[' || c == '(')),
        d1to4, .cls (fun c => c == '/' || c == '.' || c == '-'),
        d1to4, .cls (fun c => c == '/' || c == '.' || c == '-'),
        d1to4,
        rplus (.cls (fun c => c == ',' || pySpace c)),
        d1to2, lch ':', d1to2,
        ropt (.seq (lch ':') d1to2),
        ropt (rcat [.star wcl,
                    .cls (fun c => c == 'a' || c == 'A' || c == 'p' || c == 'P'),
                    .cls (fun c => c == 'm' || c == 'M')]),
        ropt (.cls (fun c => c == ']' || c == ')')),
        .star wcl,
        rplus (.cls (fun c => !(c == '\n')))]

/-! ### Date templates (strptime-style), preprocessor.py lines 47-59

`pd.to_datetime(col, format=f)` parses each string with a strptime
machine built from Python's `_strptime.TimeRE`: each `%x` directive
consumes digits greedily within its width, a whitespace character of the
format matches a nonempty run of whitespace, any other literal character
matches itself, the whole string must be consumed, and the assembled
fields must form a valid calendar date.  The directives below are the
ones occurring in the catalog. -/

inductive Dir where
  | lit : Char → Dir
  | wsp : Dir
  | dm : Dir
  | dd : Dir
  | dy : Dir
  | dY : Dir
  | dH : Dir
  | dI : Dir
  | dM : Dir
  | dS : Dir
  | dp : Dir

/-- Parsed calendar/time value (the model of a pandas `Timestamp`). -/
structure Timestamp where
  year : Nat
  month : Nat
  day : Nat
  hour : Nat
  minute : Nat
  second : Nat
deriving DecidableEq, Repr

/-- Intermediate strptime state (Python defaults: year 1900, month 1,
day 1, midnight). -/
structure PState where
  year : Nat := 1900
  month : Nat := 1
  day : Nat := 1
  hour : Nat := 0
  minute : Nat := 0
  second : Nat := 0
  hour12 : Option Nat := none
  isPM : Option Bool := none

/-- Greedy 1-2 digit number. -/
def digits1to2 (s : List Char) : Option (Nat × List Char) :=
  match s with
  | [] => none
  | c :: t =>
    if c.isDigit then
      match t with
      | c2 :: t2 =>
        if c2.isDigit then some ((c.toNat - 48) * 10 + (c2.toNat - 48), t2)
        else some (c.toNat - 48, t)
      | [] => some (c.toNat - 48, t)
    else none

/-- Exactly two digits. -/
def digits2exact (s : List Char) : Option (Nat × List Char) :=
  match s with
  | c1 :: c2 :: t =>
    if c1.isDigit && c2.isDigit then
      some ((c1.toNat - 48) * 10 + (c2.toNat - 48), t)
    else none
  | _ => none

/-- Exactly four digits. -/
def digits4exact (s : List Char) : Option (Nat × List Char) :=
  match s with
  | c1 :: c2 :: c3 :: c4 :: t =>
    if c1.isDigit && c2.isDigit && c3.isDigit && c4.isDigit then
      some (((c1.toNat - 48) * 10 + (c2.toNat - 48)) * 100 +
            (c3.toNat - 48) * 10 + (c4.toNat - 48), t)
    else none
  | _ => none

/-- Run one strptime directive. -/
def runDir (d : Dir) (st : PState) (s : List Char) : Option (PState × List Char) :=
  match d with
  | .lit c =>
    match s with
    | c1 :: t => if c1 == c then some (st, t) else none
    | [] => none
  | .wsp =>
    match s with
    | c1 :: t =>
      if pySpace c1 then some (st, t.dropWhile pySpace) else none
    | [] => none
  | .dm => (digits1to2 s).bind fun p =>
      if 1 ≤ p.1 && p.1 ≤ 12 then some ({ st with month := p.1 }, p.2) else none
  | .dd => (digits1to2 s).bind fun p =>
      if 1 ≤ p.1 && p.1 ≤ 31 then some ({ st with day := p.1 }, p.2) else none
  | .dy => (digits2exact s).bind fun p =>
      some ({ st with year := if p.1 ≤ 68 then 2000 + p.1 else 1900 + p.1 }, p.2)
  | .dY => (digits4exact s).bind fun p => some ({ st with year := p.1 }, p.2)
  | .dH => (digits1to2 s).bind fun p =>
      if p.1 ≤ 23 then some ({ st with hour := p.1 }, p.2) else none
  | .dI => (digits1to2 s).bind fun p =>
      if 1 ≤ p.1 && p.1 ≤ 12 then some ({ st with hour12 := some p.1 }, p.2) else none
  | .dM => (digits1to2 s).bind fun p =>
      if p.1 ≤ 59 then some ({ st with minute := p.1 }, p.2) else none
  | .dS => (digits1to2 s).bind fun p =>
      if p.1 ≤ 59 then some ({ st with second := p.1 }, p.2) else none
  | .dp =>
    match s with
    | c1 :: c2 :: t =>
      if (c1 == 'A' || c1 == 'a') && (c2 == 'M' || c2 == 'm') then
        some ({ st with isPM := some false }, t)
      else if (c1 == 'P' || c1 == 'p') && (c2 == 'M' || c2 == 'm') then
        some ({ st with isPM := some true }, t)
      else none
    | _ => none

/-- Run a whole directive list. -/
def runFmt (fmt : List Dir) (st : PState) (s : List Char) : Option (PState × List Char) :=
  match fmt with
  | [] => some (st, s)
  | d :: ds => (runDir d st s).bind fun p => runFmt ds p.1 p.2

/-- Gregorian leap year. -/
def isLeap (y : Nat) : Bool :=
  y % 4 == 0 && (y % 100 != 0 || y % 400 == 0)

/-- Days in a month. -/
def daysInMonth (y m : Nat) : Nat :=
  if m == 2 then (if isLeap y then 29 else 28)
  else if m == 4 || m == 6 || m == 9 || m == 11 then 30
  else 31

/-- Combine the parsed fields, applying the %I/%p rule and validating the
calendar day, as Python's datetime constructor does. -/
def finalize (st : PState) : Option Timestamp :=
  let hour :=
    match st.hour12, st.isPM with
    | some h12, some true => if h12 == 12 then 12 else h12 + 12
    | some h12, some false => if h12 == 12 then 0 else h12
    | some h12, none => h12
    | none, _ => st.hour
  if 1 ≤ st.day && st.day ≤ daysInMonth st.year st.month then
    some { year := st.year, month := st.month, day := st.day,
           hour := hour, minute := st.minute, second := st.second }
  else none

/-- Parse one timestamp fragment with one template; the whole fragment
must be consumed (pandas `exact=True`). -/
def parseFmt (fmt : List Dir) (s : List Char) : Option Timestamp :=
  match runFmt fmt {} s with
  | some (st, []) => finalize st
  | _ => none

/-! The thirteen date templates, lines 47-59 of the source. -/

def fmt_us12c : List Dir :=
  [.dm, .lit '/', .dd, .lit '/', .dy, .lit ',', .wsp,
   .dI, .lit ':', .dM, .wsp, .dp, .wsp, .lit '-', .wsp]

def fmt_uk12c : List Dir :=
  [.dd, .lit '/', .dm, .lit '/', .dy, .lit ',', .wsp,
   .dI, .lit ':', .dM, .wsp, .dp, .wsp, .lit '-', .wsp]

def fmt_us12n : List Dir :=
  [.dm, .lit '/', .dd, .lit '/', .dy, .wsp,
   .dI, .lit ':', .dM, .wsp, .dp, .wsp, .lit '-', .wsp]

def fmt_uk12n : List Dir :=
  [.dd, .lit '/', .dm, .lit '/', .dy, .wsp,
   .dI, .lit ':', .dM, .wsp, .dp, .wsp, .lit '-', .wsp]

def fmt_us24c : List Dir :=
  [.dm, .lit '/', .dd, .lit '/', .dy, .lit ',', .wsp,
   .dH, .lit ':', .dM, .wsp, .lit '-', .wsp]

def fmt_uk24c : List Dir :=
  [.dd, .lit '/', .dm, .lit '/', .dy, .lit ',', .wsp,
   .dH, .lit ':', .dM, .wsp, .lit '-', .wsp]

def fmt_uk24cY : List Dir :=
  [.dd, .lit '/', .dm, .lit '/', .dY, .lit ',', .wsp,
   .dH, .lit ':', .dM, .wsp, .lit '-', .wsp]

def fmt_us24n : List Dir :=
  [.dm, .lit '/', .dd, .lit '/', .dy, .wsp,
   .dH, .lit ':', .dM, .wsp, .lit '-', .wsp]

def fmt_uk24n : List Dir :=
  [.dd, .lit '/', .dm, .lit '/', .dy, .wsp,
   .dH, .lit ':', .dM, .wsp, .lit '-', .wsp]

def fmt_bracket : List Dir :=
  [.lit '[', .dm, .lit '/', .dd, .lit '/', .dy, .lit ',', .wsp,
   .dH, .lit ':', .dM, .lit ':', .dS, .lit ']', .wsp]

def fmt_ddmmYYYY : List Dir :=
  [.dd, .lit '/', .dm, .lit '/', .dY, .lit ',', .wsp,
   .dH, .lit ':', .dM, .wsp, .lit '-', .wsp]

def fmt_iso : List Dir :=
  [.dY, .lit '-', .dm, .lit '-', .dd, .wsp,
   .dH, .lit ':', .dM, .lit ':', .dS, .wsp, .lit '-', .wsp]

def fmt_euro : List Dir :=
  [.dd, .lit '.', .dm, .lit '.', .dy, .lit ',', .wsp,
   .dH, .lit ':', .dM, .wsp, .lit '-', .wsp]

/-- One entry of the detection/parsing catalog: a regex pattern, a date
template and a display name (source lines 46-60). -/
structure Grammar where
  pat : RE
  fmt : List Dir
  name : String

/-- The fixed priority-ordered catalog `date_patterns`, exactly in source
order. -/
def date_patterns : List Grammar :=
  [⟨pattern_12h_1, fmt_us12c, "US 12h comma"⟩,
   ⟨pattern_12h_1, fmt_uk12c, "UK 12h comma"⟩,
   ⟨pattern_12h_2, fmt_us12n, "US 12h no comma"⟩,
   ⟨pattern_12h_2, fmt_uk12n, "UK 12h no comma"⟩,
   ⟨pattern_24h_1, fmt_us24c, "US 24h comma"⟩,
   ⟨pattern_24h_1, fmt_uk24c, "UK 24h comma"⟩,
   ⟨pattern_24h_1, fmt_uk24cY, "UK 24h comma full year"⟩,
   ⟨pattern_24h_2, fmt_us24n, "US 24h no comma"⟩,
   ⟨pattern_24h_2, fmt_uk24n, "UK 24h no comma"⟩,
   ⟨pattern_24h_3, fmt_bracket, "Bracketed with seconds"⟩,
   ⟨pattern_24h_4, fmt_ddmmYYYY, "DD/MM/YYYY format"⟩,
   ⟨pattern_iso, fmt_iso, "ISO format"⟩,
   ⟨pattern_euro, fmt_euro, "European format"⟩]

/-- The fallback grammar of source lines 80-82 (the "US 12h comma"
pattern and template under the name "Generic fallback"). -/
def fallbackGrammar : Grammar :=
  ⟨pattern_12h_1, fmt_us12c, "Generic fallback"⟩

/-! ### Format detection (source lines 33, 62-85) -/

/-- Python `data.split("\n")`. -/
def splitOnNl : List Char → List (List Char)
  | [] => [[]]
  | c :: t =>
    if c == '\n' then [] :: splitOnNl t
    else
      match splitOnNl t with
      | [] => [[c]]
      | p :: ps => (c :: p) :: ps

/-- `"\n".join(data.split("\n")[:10])`: the first up-to-ten lines. -/
def sample10 (data : List Char) : List Char :=
  List.intercalate ['\n'] ((splitOnNl data).take 10)

/-- The detection loop of lines 66-71: first catalog entry whose pattern
occurs in the sample. -/
def detectLoop (sample : List Char) : List Grammar → Option Grammar
  | [] => none
  | g :: gs => if reSearch g.pat sample then some g else detectLoop sample gs

/-- Lines 62-85: detected grammar, plus whether the non-fatal
"format not recognized" warning was emitted. -/
def detectGrammar (data : List Char) : Grammar × Bool :=
  match detectLoop (sample10 data) date_patterns with
  | some g => (g, false)
  | none => (fallbackGrammar, true)

/-! ### Message extraction (source lines 91-113) -/

/-- `block.split(' - ', 1)`: split at the first occurrence of " - ",
when there is one. -/
def splitFirstDash : List Char → Option (List Char × List Char)
  | ' ' :: '-' :: ' ' :: t => some ([], t)
  | c :: t => (splitFirstDash t).map (fun p => (c :: p.1, p.2))
  | [] => none

/-- Lines 91-113: split the transcript with the detected pattern; if that
yields no messages or no dates, fall back to the permissive generic
pattern, splitting each block at its first " - "; `none` when even the
fallback finds no blocks (line 103).  Returns (messages, dates). -/
def splitStage (g : Grammar) (data : List Char) :
    Option (List (List Char) × List (List Char)) :=
  if ((reSplitPy g.pat data).drop 1).isEmpty || (reFindallPy g.pat data).isEmpty then
    if (reFindallPy generic_pattern data).isEmpty then none
    else
      some
        (((reFindallPy generic_pattern data).filterMap fun b =>
            (splitFirstDash b).map fun p => (p.1 ++ [' ', '-', ' '], p.2)).map Prod.snd,
         ((reFindallPy generic_pattern data).filterMap fun b =>
            (splitFirstDash b).map fun p => (p.1 ++ [' ', '-', ' '], p.2)).map Prod.fst)
  else some ((reSplitPy g.pat data).drop 1, reFindallPy g.pat data)

/-! ### Date parsing (source lines 125-151) -/

/-- `pd.to_datetime(col, format=fmt)`: every fragment must parse, else
the whole column fails (the exception caught at line 134). -/
def parseAll (fmt : List Dir) : List (List Char) → Option (List Timestamp)
  | [] => some []
  | s :: col =>
    match parseFmt fmt s, parseAll fmt col with
    | some t, some ts => some (t :: ts)
    | _, _ => none

/-- The template loop of lines 129-135: first template parsing the whole
column wins. -/
def firstFmt (col : List (List Char)) : List Grammar → Option (List Timestamp)
  | [] => none
  | g :: gs =>
    match parseAll g.fmt col with
    | some ts => some ts
    | none => firstFmt col gs

/-- Lines 125-147.  The flexible fallback interpreter of line 140
(`pd.to_datetime(..., infer_datetime_format=True, errors='coerce')`) is
an external library routine, modelled as the parameter `flex`; rows it
coerces to null are dropped (line 142), and an empty survivor set is a
failure (lines 143-151). -/
def dateStage (flex : List Char → Option Timestamp)
    (rows : List (List Char × List Char)) : Option (List (List Char × Timestamp)) :=
  match firstFmt (rows.map Prod.snd) date_patterns with
  | some ts => some ((rows.map Prod.fst).zip ts)
  | none =>
    let kept := rows.filterMap fun r => (flex r.2).map fun t => (r.1, t)
    if kept.isEmpty then none else some kept

/-! ### Sender/body extraction (source lines 157-176) -/

/-- Position of the first `:` immediately followed by whitespace. -/
def colonWsAt : List Char → Option Nat
  | c1 :: c2 :: t =>
    if c1 == ':' && pySpace c2 then some 0
    else (colonWsAt (c2 :: t)).map (· + 1)
  | _ => none

/-- Python `re.split('([\w\W]+?):\s', m)`: the lazy group needs at least
one character, so the delimiter is searched from position 1; each match
contributes an empty inter-match piece and the captured group, and the
scan resumes after the consumed whitespace.  Every recursive call drops
at least three characters, so fuel exceeding `s.length` is never
exhausted by the wrapper below. -/
def splitColonWsF : Nat → List Char → List (List Char)
  | 0, s => [s]
  | _ + 1, [] => [[]]
  | f + 1, c :: t =>
    match colonWsAt t with
    | none => [c :: t]
    | some i => [] :: (c :: t).take (i + 1) :: splitColonWsF f ((c :: t).drop (i + 3))

def splitColonWs (s : List Char) : List (List Char) :=
  splitColonWsF (s.length + 1) s

/-- Position of the first whitespace-dash-whitespace delimiter
(`\s[-–—]\s`). -/
def dashDelimAt : List Char → Option Nat
  | c1 :: c2 :: c3 :: t =>
    if pySpace c1 && (c2 == '-' || c2 == '–' || c2 == '—') && pySpace c3 then some 0
    else (dashDelimAt (c2 :: c3 :: t)).map (· + 1)
  | _ => none

/-- Python `re.split('([\w\W]+?)\s[-–—]\s', m)`, analogous to
`splitColonWs` with a three-character delimiter. -/
def splitDashPatF : Nat → List Char → List (List Char)
  | 0, s => [s]
  | _ + 1, [] => [[]]
  | f + 1, c :: t =>
    match dashDelimAt t with
    | none => [c :: t]
    | some i => [] :: (c :: t).take (i + 1) :: splitDashPatF f ((c :: t).drop (i + 4))

def splitDashPat (s : List Char) : List (List Char) :=
  splitDashPatF (s.length + 1) s

/-- Python `str.strip()` (whitespace from both ends). -/
def pyStrip (s : List Char) : List Char :=
  ((s.dropWhile pySpace).reverse.dropWhile pySpace).reverse

/-- The sentinel sender for system/service notifications. -/
def group_notification : List Char := "group_notification".data

/-- Lines 161-176: colon-delimited sender first, then the dash pattern,
else the sentinel with the stripped line; the body is
`" ".join(entry[2:])`. -/
def extractUserMsg (m : List Char) : List Char × List Char :=
  match splitColonWs m with
  | _ :: u :: rest => (u, List.intercalate [' '] rest)
  | _ =>
    match splitDashPat m with
    | _ :: u :: rest => (u, List.intercalate [' '] rest)
    | _ => (group_notification, pyStrip m)

/-- Line 187: `re.sub(r'^\+\d+\s', '', x)` — strip a leading
plus-digits-whitespace prefix, once, anchored at the start (`\d+` is
greedy, and a digit can never satisfy the following `\s`, so the prefix
removed is exactly the plus sign, the maximal digit run and one
whitespace character). -/
def normalizeUser (u : List Char) : List Char :=
  match u with
  | c :: t =>
    if c = '+' then
      let ds := t.takeWhile Char.isDigit
      match t.drop ds.length with
      | w :: rest => if ds.length > 0 && pySpace w then rest else u
      | [] => u
    else u
  | [] => u

/-! ### Derived time features (source lines 193-216) -/

/-- `dt.month_name()`. -/
def monthName (m : Nat) : String :=
  ["January", "February", "March", "April", "May", "June", "July",
   "August", "September", "October", "November", "December"].getD (m - 1) ""

/-- Day of week by Sakamoto's method, 0 = Sunday. -/
def dayOfWeek (y m d : Nat) : Nat :=
  let tbl := [0, 3, 2, 5, 0, 3, 5, 1, 4, 6, 2, 4]
  let y1 := if m < 3 then y - 1 else y
  (y1 + y1 / 4 - y1 / 100 + y1 / 400 + tbl.getD (m - 1) 0 + d) % 7

/-- `dt.day_name()`. -/
def dayName (w : Nat) : String :=
  ["Sunday", "Monday", "Tuesday", "Wednesday", "Thursday", "Friday",
   "Saturday"].getD w ""

/-- Lines 207-214: the hour-to-period bucket, branch for branch. -/
def periodBucket (hour : Nat) : String :=
  if hour == 11 then toString hour ++ "AM-12PM"
  else if hour == 23 then toString (hour - 12) ++ "PM-12AM"
  else if hour == 0 then "12AM-1AM"
  else if hour == 12 then "12PM-1PM"
  else if hour < 11 then toString hour ++ "AM-" ++ toString (hour + 1) ++ "AM"
  else toString (hour - 12) ++ "PM-" ++ toString (hour - 11) ++ "PM"

/-- One row of the final DataFrame (columns after line 184's drop). -/
structure Record where
  date : Option Timestamp
  user : String
  message : String
  only_date : Nat × Nat × Nat
  year : Nat
  month_num : Nat
  month : String
  day : Nat
  day_name : String
  hour : Nat
  minute : Nat
  am_pm : String
  period : String
deriving DecidableEq, Repr

/-- Sections 6-9 of the source applied to one row: sender/body
extraction, phone-prefix normalization, and the derived time columns. -/
def mkRecord (r : List Char × Timestamp) : Record :=
  let um := extractUserMsg r.1
  let u := normalizeUser um.1
  let t := r.2
  { date := some t
    user := String.mk u
    message := String.mk um.2
    only_date := (t.year, t.month, t.day)
    year := t.year
    month_num := t.month
    month := monthName t.month
    day := t.day
    day_name := dayName (dayOfWeek t.year t.month t.day)
    hour := t.hour
    minute := t.minute
    am_pm := if t.hour < 12 then "AM" else "PM"
    period := periodBucket t.hour }

/-- Lines 222-228: drop rows with a null date (the message column holds
strings and is never null), then require at least two rows. -/
def validate (recs : List Record) : Option (List Record) :=
  let v := recs.filter fun r => r.date.isSome
  if v.length < 2 then none else some v

/-- The body of `preprocess` (inside the `try` of line 27).  The only
statement of the body that can raise outside an inner handler is the
DataFrame construction of line 119, which demands columns of equal
length; that is the `Except.error` branch.  `Except.ok none` is an
explicit `return None`. -/
def preprocessCore (flex : List Char → Option Timestamp) (data : List Char) :
    Except String (Option (List Record)) :=
  match splitStage (detectGrammar data).1 data with
  | none => .ok none
  | some (messages, dates) =>
    if messages.length = dates.length then
      match dateStage flex (messages.zip dates) with
      | none => .ok none
      | some rows2 =>
        if rows2.isEmpty then .ok none
        else .ok (validate (rows2.map mkRecord))
    else .error "ValueError: All arrays must be of the same length"

/-- The public entry point: the `try`/`except` of lines 27 and 234-238
turns any escaping exception into the failure signal `None`. -/
def preprocess (flex : List Char → Option Timestamp) (data : String) :
    Option (List Record) :=
  match preprocessCore flex data.data with
  | .ok r => r
  | .error _ => none

/-! ### Auxiliary definitions used only by the statements of the theorems -/

/-- The period-bucket table as the specification words it (h = 0, 11, 12,
23 special-cased, then the AM and PM ranges). -/
def periodBucketSpec (h : Nat) : String :=
  if h = 0 then "12AM-1AM"
  else if h = 11 then "11AM-12PM"
  else if h = 12 then "12PM-1PM"
  else if h = 23 then "11PM-12AM"
  else if h < 11 then toString h ++ "AM-" ++ toString (h + 1) ++ "AM"
  else toString (h - 12) ++ "PM-" ++ toString (h - 11) ++ "PM"

/-- A colon-followed-by-whitespace delimiter occurs at position `k` of
`m`. -/
def mDelim (m : List Char) (k : Nat) : Prop :=
  k + 1 < m.length ∧ m.getD k 'x' = ':' ∧ pySpace (m.getD (k + 1) 'x') = true

instance (m : List Char) (k : Nat) : Decidable (mDelim m k) := by
  unfold mDelim; infer_instance

/-- A whitespace, dash (hyphen, en dash or em dash), whitespace delimiter
occurs at position `k` of `m`. -/
def dDelim (m : List Char) (k : Nat) : Prop :=
  k + 2 < m.length ∧ pySpace (m.getD k 'x') = true ∧
    (m.getD (k + 1) 'x' = '-' ∨ m.getD (k + 1) 'x' = '–' ∨ m.getD (k + 1) 'x' = '—') ∧
    pySpace (m.getD (k + 2) 'x') = true

instance (m : List Char) (k : Nat) : Decidable (dDelim m k) := by
  unfold dDelim; infer_instance

/-- A flexible date interpreter that parses nothing (the concrete
transcripts below parse with the first catalog template, so the flexible
interpreter is never consulted on them). -/
def flexNone : List Char → Option Timestamp := fun _ => none

/-- A transcript yielding exactly two valid records. -/
def chatTwo : String := "1/5/23, 10:15 AM - Alice: hi\n1/5/23, 10:16 AM - Bob: yo"

/-- A transcript yielding exactly one valid record. -/
def chatOne : String := "1/5/23, 10:15 AM - Alice: hi"

/-- A transcript whose first message comes from a sender that is a bare
phone prefix, which the normalization of line 187 strips to the empty
string. -/
def chatEmptySender : String :=
  "1/5/23, 10:15 AM - +1 : hi\n1/5/23, 10:16 AM - Bob: yo"

/-- A transcript whose second message has an empty body. -/
def chatEmptyBody : String :=
  "1/5/23, 10:15 AM - Alice: hi\n1/5/23, 10:16 AM - Bob: "

/-- A transcript matched by no catalog pattern and containing no generic
timestamp block at all. -/
def chatGarbage : String := "total garbage, nothing here"

/-! ## Helper lemmas -/

lemma detectLoop_append (sample : List Char) (l1 : List Grammar) (g : Grammar)
    (l2 : List Grammar) (h1 : ∀ g2 ∈ l1, reSearch g2.pat sample = false)
    (h2 : reSearch g.pat sample = true) :
    detectLoop sample (l1 ++ g :: l2) = some g := by
  induction l1 with
  | nil => simp [detectLoop, h2]
  | cons a l ih =>
    have ha : reSearch a.pat sample = false := h1 a (List.mem_cons_self a l)
    simpa [detectLoop, ha] using ih (fun g2 hg2 => h1 g2 (List.mem_cons_of_mem a hg2))

lemma detectLoop_nomatch (sample : List Char) (l : List Grammar)
    (h : ∀ g ∈ l, reSearch g.pat sample = false) :
    detectLoop sample l = none := by
  induction l with
  | nil => rfl
  | cons a t ih =>
    have ha : reSearch a.pat sample = false := h a (List.mem_cons_self a t)
    simpa [detectLoop, ha] using ih (fun g hg => h g (List.mem_cons_of_mem a hg))

lemma pySpace_not_digit (w : Char) (h : pySpace w = true) : w.isDigit = false := by
  have h2 : w = ' ' ∨ w = '\t' ∨ w = '\n' ∨ w = '\x0d' ∨ w = '\x0b' ∨ w = '\x0c' := by
    simpa [pySpace, or_assoc] using h
  rcases h2 with h2 | h2 | h2 | h2 | h2 | h2 <;> subst h2 <;> decide

lemma takeWhile_all_append (p : Char → Bool) (d : List Char) (w : Char)
    (rest : List Char) (h2 : ∀ c ∈ d, p c = true) (hw : p w = false) :
    (d ++ w :: rest).takeWhile p = d := by
  induction d with
  | nil => simp [List.takeWhile, hw]
  | cons a l ih =>
    have ha : p a = true := h2 a (List.mem_cons_self a l)
    simpa [List.takeWhile, ha] using ih (fun c hc => h2 c (List.mem_cons_of_mem a hc))

lemma reScan_len (r : RE) : ∀ (f : Nat) (acc s : List Char),
    (reScan r f acc s).1.length = (reScan r f acc s).2.length + 1 := by
  intro f
  induction f with
  | zero => intro acc s; simp [reScan]
  | succ f ih =>
    intro acc s
    cases s with
    | nil => simp [reScan]
    | cons c t =>
      rw [reScan]
      cases reMatch r (c :: t) with
      | some rest =>
        by_cases hlt : rest.length < (c :: t).length
        · simp only [hlt, if_true]
          simp [ih]
        · simp only [hlt, if_false]
          exact ih (c :: acc) t
      | none => exact ih (c :: acc) t

lemma splitPieces_len (r : RE) (data : List Char) :
    (reSplitPy r data).length = (reFindallPy r data).length + 1 := by
  simpa [reSplitPy, reFindallPy] using reScan_len r (data.length + 1) [] data

lemma splitStage_len (g : Grammar) (data : List Char)
    (msgs dts : List (List Char))
    (h : splitStage g data = some (msgs, dts)) : msgs.length = dts.length := by
  unfold splitStage at h
  by_cases hb : ((reSplitPy g.pat data).drop 1).isEmpty || (reFindallPy g.pat data).isEmpty
  · rw [if_pos hb] at h
    by_cases hblocks : (reFindallPy generic_pattern data).isEmpty
    · rw [if_pos hblocks] at h
      exact absurd h (by simp)
    · rw [if_neg hblocks] at h
      injection h with h2
      have h3 := congrArg Prod.fst h2
      have h4 := congrArg Prod.snd h2
      simp only [] at h3 h4
      rw [← h3, ← h4]
      simp
  · rw [if_neg hb] at h
    injection h with h2
    have h3 := congrArg Prod.fst h2
    have h4 := congrArg Prod.snd h2
    simp only [] at h3 h4
    rw [← h3, ← h4]
    have := splitPieces_len g.pat data
    simp [List.length_drop, this]

lemma preprocessCore_ok (flex : List Char → Option Timestamp) (data : List Char) :
    ∃ r, preprocessCore flex data = Except.ok r := by
  cases hs : splitStage (detectGrammar data).1 data with
  | none => exact ⟨none, by simp [preprocessCore, hs]⟩
  | some p =>
    obtain ⟨msgs, dts⟩ := p
    have hlen := splitStage_len _ _ _ _ hs
    cases hd : dateStage flex (msgs.zip dts) with
    | none => exact ⟨none, by simp [preprocessCore, hs, hlen, hd]⟩
    | some rows2 =>
      by_cases he : rows2.isEmpty
      · exact ⟨none, by simp [preprocessCore, hs, hlen, hd, he]⟩
      · exact ⟨validate (rows2.map mkRecord),
          by simp [preprocessCore, hs, hlen, hd, he]⟩

lemma preprocessCore_some_length (flex : List Char → Option Timestamp)
    (data : List Char) (df : List Record)
    (h : preprocessCore flex data = Except.ok (some df)) : 2 ≤ df.length := by
  cases hs : splitStage (detectGrammar data).1 data with
  | none => simp [preprocessCore, hs] at h
  | some p =>
    obtain ⟨msgs, dts⟩ := p
    by_cases hlen : msgs.length = dts.length
    · cases hd : dateStage flex (msgs.zip dts) with
      | none => simp [preprocessCore, hs, hlen, hd] at h
      | some rows2 =>
        by_cases he : rows2.isEmpty
        · simp [preprocessCore, hs, hlen, hd, he] at h
        · simp [preprocessCore, hs, hlen, hd, he] at h
          unfold validate at h
          by_cases hv : ((rows2.map mkRecord).filter fun r => r.date.isSome).length < 2
          · rw [if_pos hv] at h; simp at h
          · rw [if_neg hv] at h
            injection h with h3
            rw [← h3]
            omega
    · simp [preprocessCore, hs, hlen] at h

lemma preprocess_some_length (flex : List Char → Option Timestamp)
    (data : String) (df : List Record)
    (h : preprocess flex data = some df) : 2 ≤ df.length := by
  unfold preprocess at h
  cases hc : preprocessCore flex data.data with
  | error e => rw [hc] at h; simp at h
  | ok r =>
    rw [hc] at h
    exact preprocessCore_some_length flex data.data df (h ▸ hc)

/-! ## Claims -/

/-- Claim C10: for every input string, `preprocess` returns either a
structured dataset or the failure signal `None` and never propagates an
exception: the body (`preprocessCore`) never reaches its `Except.error`
branch — its one uncaught raise site, the DataFrame construction,
demands equally long message and date columns, which the splitter always
produces — and the outer handler makes the result of `preprocess` the
body's own result. -/
theorem preprocess_total_no_exception (flex : List Char → Option Timestamp)
    (data : String) :
    ∃ r : Option (List Record), preprocessCore flex data.data = Except.ok r ∧
      preprocess flex data = r := by
  obtain ⟨r, hr⟩ := preprocessCore_ok flex data.data
  exact ⟨r, hr, by unfold preprocess; rw [hr]⟩

/-- Claim C5: a transcript yielding exactly one valid record fails, one
yielding exactly two succeeds, and every successfully returned dataset
has at least two records. -/
theorem minimum_viable_data :
    preprocess flexNone chatOne = none ∧
    (preprocess flexNone chatTwo).isSome = true ∧
    ∀ (flex : List Char → Option Timestamp) (data : String) (df : List Record),
      preprocess flex data = some df → 2 ≤ df.length := by
  refine ⟨by decide, by decide, ?_⟩
  intro flex data df h
  exact preprocess_some_length flex data df h

theorem minimum_viable_data_witness :
    2 ≤ ((preprocess flexNone chatTwo).getD []).length :=
  minimum_viable_data.2.2 flexNone chatTwo ((preprocess flexNone chatTwo).getD [])
    (by decide)

/-- Claim C1: detection looks only at the sample made of the first ten
lines, walks the fixed priority-ordered catalog and commits to the first
grammar whose pattern occurs anywhere in the sample; if none matches it
selects the default grammar — the "US 12-hour with comma"
pattern/template pair — and raises the warning flag instead of
failing. -/
theorem format_detection_first_match (data : List Char) :
    (∀ data2 : List Char, sample10 data = sample10 data2 →
        detectGrammar data = detectGrammar data2) ∧
    (∀ (l1 : List Grammar) (g : Grammar) (l2 : List Grammar),
        date_patterns = l1 ++ g :: l2 →
        (∀ g2 ∈ l1, reSearch g2.pat (sample10 data) = false) →
        reSearch g.pat (sample10 data) = true →
        detectGrammar data = (g, false)) ∧
    ((∀ g ∈ date_patterns, reSearch g.pat (sample10 data) = false) →
        detectGrammar data = (fallbackGrammar, true)) ∧
    fallbackGrammar.pat = pattern_12h_1 ∧ fallbackGrammar.fmt = fmt_us12c := by
  refine ⟨?_, ?_, ?_, rfl, rfl⟩
  · intro data2 h
    unfold detectGrammar
    rw [h]
  · intro l1 g l2 hcat h1 h2
    unfold detectGrammar
    rw [hcat, detectLoop_append (sample10 data) l1 g l2 h1 h2]
  · intro h
    unfold detectGrammar
    rw [detectLoop_nomatch (sample10 data) date_patterns h]

theorem format_detection_first_match_witness :
    detectGrammar chatTwo.data = (⟨pattern_12h_1, fmt_us12c, "US 12h comma"⟩, false) :=
  (format_detection_first_match chatTwo.data).2.1 []
    ⟨pattern_12h_1, fmt_us12c, "US 12h comma"⟩ date_patterns.tail rfl
    (by simp) (by decide)

lemma firstFmt_append (col : List (List Char)) (l1 : List Grammar) (g : Grammar)
    (l2 : List Grammar) (ts : List Timestamp)
    (h1 : ∀ g2 ∈ l1, parseAll g2.fmt col = none)
    (h2 : parseAll g.fmt col = some ts) :
    firstFmt col (l1 ++ g :: l2) = some ts := by
  induction l1 with
  | nil => simp [firstFmt, h2]
  | cons a l ih =>
    have ha : parseAll a.fmt col = none := h1 a (List.mem_cons_self a l)
    simpa [firstFmt, ha] using ih (fun g2 hg2 => h1 g2 (List.mem_cons_of_mem a hg2))

lemma firstFmt_nomatch (col : List (List Char)) (l : List Grammar)
    (h : ∀ g ∈ l, parseAll g.fmt col = none) :
    firstFmt col l = none := by
  induction l with
  | nil => rfl
  | cons a t ih =>
    have ha : parseAll a.fmt col = none := h a (List.mem_cons_self a t)
    simpa [firstFmt, ha] using ih (fun g hg => h g (List.mem_cons_of_mem a hg))

lemma parseAll_isSome_iff (fmt : List Dir) (col : List (List Char)) :
    (parseAll fmt col).isSome = true ↔ ∀ s ∈ col, (parseFmt fmt s).isSome = true := by
  induction col with
  | nil => simp [parseAll]
  | cons a t ih =>
    cases ha : parseFmt fmt a with
    | none =>
      simp only [parseAll, ha]
      constructor
      · intro h; exact absurd h (by simp)
      · intro h
        have h2 := h a (List.mem_cons_self a t)
        rw [ha] at h2
        exact absurd h2 (by simp)
    | some v =>
      cases ht : parseAll fmt t with
      | none =>
        simp only [parseAll, ha, ht]
        constructor
        · intro h; exact absurd h (by simp)
        · intro h
          have h2 : (parseAll fmt t).isSome = true :=
            ih.mpr (fun s hs => h s (List.mem_cons_of_mem a hs))
          rw [ht] at h2
          exact absurd h2 (by simp)
      | some ts =>
        simp only [parseAll, ha, ht]
        constructor
        · intro _ s hs
          rcases List.mem_cons.mp hs with h1 | h1
          · subst h1; simp [ha]
          · exact ih.mp (by simp [ht]) s h1
        · intro _; rfl

/-- Claim C2: date parsing tries every template of the full catalog in
priority order; a template succeeds only when it parses every fragment of
the column (first conjunct), and the first fully successful template
determines the parsed column (second conjunct); if no template parses the
whole column, the flexible fallback interpreter is applied per row, rows
it cannot parse are dropped, and an empty survivor set is a failure
(third conjunct) which makes the whole pipeline return the failure
signal (fourth conjunct). -/
theorem date_parsing_first_template (flex : List Char → Option Timestamp)
    (rows : List (List Char × List Char)) :
    (∀ fmt : List Dir,
        (parseAll fmt (rows.map Prod.snd)).isSome = true ↔
          ∀ s ∈ rows.map Prod.snd, (parseFmt fmt s).isSome = true) ∧
    (∀ (l1 : List Grammar) (g : Grammar) (l2 : List Grammar) (ts : List Timestamp),
        date_patterns = l1 ++ g :: l2 →
        (∀ g2 ∈ l1, parseAll g2.fmt (rows.map Prod.snd) = none) →
        parseAll g.fmt (rows.map Prod.snd) = some ts →
        dateStage flex rows = some ((rows.map Prod.fst).zip ts)) ∧
    ((∀ g ∈ date_patterns, parseAll g.fmt (rows.map Prod.snd) = none) →
        dateStage flex rows =
          (if (rows.filterMap fun r => (flex r.2).map fun t => (r.1, t)).isEmpty
           then none
           else some (rows.filterMap fun r => (flex r.2).map fun t => (r.1, t)))) ∧
    (∀ (data : List Char) (msgs dts : List (List Char)),
        splitStage (detectGrammar data).1 data = some (msgs, dts) →
        dateStage flex (msgs.zip dts) = none →
        preprocess flex (String.mk data) = none) := by
  refine ⟨fun fmt => parseAll_isSome_iff fmt (rows.map Prod.snd), ?_, ?_, ?_⟩
  · intro l1 g l2 ts hcat h1 h2
    unfold dateStage
    rw [hcat, firstFmt_append (rows.map Prod.snd) l1 g l2 ts h1 h2]
  · intro h
    unfold dateStage
    rw [firstFmt_nomatch (rows.map Prod.snd) date_patterns h]
  · intro data msgs dts hsplit hdate
    show (match preprocessCore flex data with
          | .ok r => r
          | .error _ => none) = none
    by_cases hlen : msgs.length = dts.length
    · simp [preprocessCore, hsplit, hlen, hdate]
    · simp [preprocessCore, hsplit, hlen]

theorem date_parsing_first_template_witness :
    dateStage flexNone [("Alice: hi".data, "1/5/23, 10:15 AM - ".data)] =
      some [("Alice: hi".data,
             ⟨2023, 1, 5, 10, 15, 0⟩)] := by
  have h := (date_parsing_first_template flexNone
      [("Alice: hi".data, "1/5/23, 10:15 AM - ".data)]).2.1 []
    ⟨pattern_12h_1, fmt_us12c, "US 12h comma"⟩ date_patterns.tail
    [⟨2023, 1, 5, 10, 15, 0⟩] rfl (by simp) (by decide)
  exact h.trans (by decide)

/-- Claim C6: when splitting with the detected grammar yields an empty
message or timestamp sequence, the splitter escalates to the permissive
generic catch-all pattern and splits each found block at its first
" - " delimiter; if the generic pattern finds no blocks the split stage
signals failure, and a failed split stage makes the whole pipeline
return the failure signal rather than an empty dataset. -/
theorem extraction_failure_fatal (data : List Char) :
    (∀ g : Grammar,
        ((reSplitPy g.pat data).drop 1).isEmpty = true ∨
          (reFindallPy g.pat data).isEmpty = true →
        splitStage g data =
          (if (reFindallPy generic_pattern data).isEmpty then none
           else
             some
               (((reFindallPy generic_pattern data).filterMap fun b =>
                   (splitFirstDash b).map fun p =>
                     (p.1 ++ [' ', '-', ' '], p.2)).map Prod.snd,
                ((reFindallPy generic_pattern data).filterMap fun b =>
                   (splitFirstDash b).map fun p =>
                     (p.1 ++ [' ', '-', ' '], p.2)).map Prod.fst))) ∧
    (splitStage (detectGrammar data).1 data = none →
        ∀ flex : List Char → Option Timestamp,
          preprocess flex (String.mk data) = none) := by
  constructor
  · intro g h
    have hcond : (((reSplitPy g.pat data).drop 1).isEmpty ||
        (reFindallPy g.pat data).isEmpty) = true := by
      simp only [Bool.or_eq_true]
      exact h
    unfold splitStage
    rw [if_pos hcond]
  · intro hsplit flex
    show (match preprocessCore flex data with
          | .ok r => r
          | .error _ => none) = none
    simp [preprocessCore, hsplit]

theorem extraction_failure_fatal_witness :
    splitStage fallbackGrammar chatGarbage.data = none ∧
    preprocess flexNone chatGarbage = none := by
  constructor
  · exact ((extraction_failure_fatal chatGarbage.data).1 fallbackGrammar
      (Or.inl (by decide))).trans (by decide)
  · exact (extraction_failure_fatal chatGarbage.data).2 (by decide) flexNone

lemma getD_drop (n : Nat) (l : List Char) (j : Nat) (d : Char) :
    (l.drop n).getD j d = l.getD (n + j) d := by
  induction n generalizing l with
  | zero => simp
  | succ n ih =>
    cases l with
    | nil => simp
    | cons c t => simp [Nat.succ_add, ih]

lemma mDelim_cons (c : Char) (t : List Char) (j : Nat) :
    mDelim (c :: t) (j + 1) ↔ mDelim t j := by
  unfold mDelim
  simp only [List.getD_cons_succ, List.length_cons]
  constructor <;> rintro ⟨h1, h2, h3⟩ <;> exact ⟨by omega, h2, h3⟩

lemma mDelim_drop (n : Nat) (m : List Char) (j : Nat) :
    mDelim (m.drop n) j ↔ mDelim m (n + j) := by
  unfold mDelim
  rw [getD_drop, getD_drop, List.length_drop]
  constructor <;> rintro ⟨h1, h2, h3⟩ <;> exact ⟨by omega, h2, h3⟩

lemma dDelim_cons (c : Char) (t : List Char) (j : Nat) :
    dDelim (c :: t) (j + 1) ↔ dDelim t j := by
  unfold dDelim
  simp only [List.getD_cons_succ, List.length_cons]
  constructor <;> rintro ⟨h1, h2, h3, h4⟩ <;> exact ⟨by omega, h2, h3, h4⟩

lemma dDelim_drop (n : Nat) (m : List Char) (j : Nat) :
    dDelim (m.drop n) j ↔ dDelim m (n + j) := by
  unfold dDelim
  rw [getD_drop, getD_drop, getD_drop, List.length_drop]
  constructor <;> rintro ⟨h1, h2, h3, h4⟩ <;> exact ⟨by omega, h2, h3, h4⟩

lemma colonWsAt_spec (t : List Char) :
    (∀ i, colonWsAt t = some i → mDelim t i ∧ ∀ j < i, ¬ mDelim t j) ∧
    (colonWsAt t = none → ∀ j, ¬ mDelim t j) := by
  induction t with
  | nil =>
    constructor
    · intro i h; simp [colonWsAt] at h
    · intro _ j
      rintro ⟨h1, _, _⟩
      simp at h1
  | cons c1 rest ih =>
    cases rest with
    | nil =>
      constructor
      · intro i h; simp [colonWsAt] at h
      · intro _ j
        rintro ⟨h1, _, _⟩
        simp at h1
    | cons c2 t2 =>
      by_cases hc : (c1 == ':' && pySpace c2) = true
      · have heq : colonWsAt (c1 :: c2 :: t2) = some 0 := by
          simp only [colonWsAt, if_pos hc]
        constructor
        · intro i h
          rw [heq] at h
          injection h with h2
          subst h2
          refine ⟨⟨by simp, ?_, ?_⟩, by omega⟩
          · simp only [List.getD_cons_zero]
            exact eq_of_beq (Bool.and_elim_left hc)
          · simp only [List.getD_cons_succ, List.getD_cons_zero]
            exact Bool.and_elim_right hc
        · intro h; rw [heq] at h; simp at h
      · have h0 : ¬ mDelim (c1 :: c2 :: t2) 0 := by
          rintro ⟨h1, h2, h3⟩
          simp only [List.getD_cons_zero] at h2
          simp only [List.getD_cons_succ, List.getD_cons_zero] at h3
          exact hc (by simp [h2, h3])
        have heq : colonWsAt (c1 :: c2 :: t2) = (colonWsAt (c2 :: t2)).map (· + 1) := by
          simp only [colonWsAt, if_neg hc]
        constructor
        · intro i h
          rw [heq] at h
          cases hrec : colonWsAt (c2 :: t2) with
          | none => rw [hrec] at h; simp at h
          | some i2 =>
            rw [hrec] at h
            have h2 : i2 + 1 = i := by simpa using h
            subst h2
            obtain ⟨hdel, hleast⟩ := (ih.1) i2 hrec
            refine ⟨(mDelim_cons c1 (c2 :: t2) i2).mpr hdel, ?_⟩
            intro j hj
            cases j with
            | zero => exact h0
            | succ j2 =>
              intro hdj
              exact hleast j2 (by omega) ((mDelim_cons c1 (c2 :: t2) j2).mp hdj)
        · intro h j
          rw [heq] at h
          cases hrec : colonWsAt (c2 :: t2) with
          | some i2 => rw [hrec] at h; simp at h
          | none =>
            cases j with
            | zero => exact h0
            | succ j2 =>
              intro hdj
              exact (ih.2 hrec) j2 ((mDelim_cons c1 (c2 :: t2) j2).mp hdj)

lemma dashDelimAt_spec (t : List Char) :
    (∀ i, dashDelimAt t = some i → dDelim t i ∧ ∀ j < i, ¬ dDelim t j) ∧
    (dashDelimAt t = none → ∀ j, ¬ dDelim t j) := by
  induction t with
  | nil =>
    constructor
    · intro i h; simp [dashDelimAt] at h
    · intro _ j
      rintro ⟨h1, _, _⟩
      simp at h1
  | cons c1 rest ih =>
    cases rest with
    | nil =>
      constructor
      · intro i h; simp [dashDelimAt] at h
      · intro _ j
        rintro ⟨h1, _, _⟩
        simp at h1
    | cons c2 rest2 =>
      cases rest2 with
      | nil =>
        constructor
        · intro i h; simp [dashDelimAt] at h
        · intro _ j
          rintro ⟨h1, _, _⟩
          simp at h1
      | cons c3 t3 =>
        by_cases hc : (pySpace c1 && (c2 == '-' || c2 == '–' || c2 == '—') && pySpace c3) = true
        · have heq : dashDelimAt (c1 :: c2 :: c3 :: t3) = some 0 := by
            simp only [dashDelimAt, if_pos hc]
          constructor
          · intro i h
            rw [heq] at h
            injection h with h2
            subst h2
            have hc1 := Bool.and_elim_left (Bool.and_elim_left hc)
            have hc2 := Bool.and_elim_right (Bool.and_elim_left hc)
            have hc3 := Bool.and_elim_right hc
            refine ⟨⟨by simp, ?_, ?_, ?_⟩, by omega⟩
            · simpa using hc1
            · simp only [List.getD_cons_succ, List.getD_cons_zero]
              rcases Bool.or_eq_true_iff.mp hc2 with h | h
              · rcases Bool.or_eq_true_iff.mp h with h | h
                · exact Or.inl (eq_of_beq h)
                · exact Or.inr (Or.inl (eq_of_beq h))
              · exact Or.inr (Or.inr (eq_of_beq h))
            · simpa using hc3
          · intro h; rw [heq] at h; simp at h
        · have h0 : ¬ dDelim (c1 :: c2 :: c3 :: t3) 0 := by
            rintro ⟨h1, h2, h3, h4⟩
            simp only [List.getD_cons_zero] at h2
            simp only [List.getD_cons_succ, List.getD_cons_zero] at h3 h4
            apply hc
            have hc2 : (c2 == '-' || c2 == '–' || c2 == '—') = true := by
              rcases h3 with h | h | h <;> simp [h]
            simp [h2, hc2, h4]
          have heq : dashDelimAt (c1 :: c2 :: c3 :: t3) =
              (dashDelimAt (c2 :: c3 :: t3)).map (· + 1) := by
            simp only [dashDelimAt, if_neg hc]
          constructor
          · intro i h
            rw [heq] at h
            cases hrec : dashDelimAt (c2 :: c3 :: t3) with
            | none => rw [hrec] at h; simp at h
            | some i2 =>
              rw [hrec] at h
              have h2 : i2 + 1 = i := by simpa using h
              subst h2
              obtain ⟨hdel, hleast⟩ := (ih.1) i2 hrec
              refine ⟨(dDelim_cons c1 (c2 :: c3 :: t3) i2).mpr hdel, ?_⟩
              intro j hj
              cases j with
              | zero => exact h0
              | succ j2 =>
                intro hdj
                exact hleast j2 (by omega) ((dDelim_cons c1 (c2 :: c3 :: t3) j2).mp hdj)
          · intro h j
            rw [heq] at h
            cases hrec : dashDelimAt (c2 :: c3 :: t3) with
            | some i2 => rw [hrec] at h; simp at h
            | none =>
              cases j with
              | zero => exact h0
              | succ j2 =>
                intro hdj
                exact (ih.2 hrec) j2 ((dDelim_cons c1 (c2 :: c3 :: t3) j2).mp hdj)

lemma colonWsAt_le (t : List Char) (i : Nat) (h : colonWsAt t = some i) :
    i + 2 ≤ t.length := by
  have := ((colonWsAt_spec t).1 i h).1.1
  omega

lemma dashDelimAt_le (t : List Char) (i : Nat) (h : dashDelimAt t = some i) :
    i + 3 ≤ t.length := by
  have := ((dashDelimAt_spec t).1 i h).1.1
  omega

lemma splitColonWsF_eq : ∀ (f : Nat) (s : List Char), s.length < f →
    splitColonWsF f s = splitColonWs s := by
  intro f
  induction f using Nat.strong_induction_on with
  | _ f ih =>
    intro s hs
    cases f with
    | zero => omega
    | succ f2 =>
      cases s with
      | nil => rfl
      | cons c t =>
        cases hi : colonWsAt t with
        | none =>
          show _ = splitColonWsF ((c :: t).length + 1) (c :: t)
          simp [splitColonWsF, hi]
        | some i =>
          have hb := colonWsAt_le t i hi
          have hlen1 : ((c :: t).drop (i + 3)).length < f2 := by
            simp only [List.length_drop, List.length_cons]
            simp only [List.length_cons] at hs
            omega
          have hlen2 : ((c :: t).drop (i + 3)).length < t.length + 1 := by
            simp only [List.length_drop, List.length_cons]
            omega
          show _ = splitColonWsF ((c :: t).length + 1) (c :: t)
          simp only [List.length_cons]
          rw [show splitColonWsF (f2 + 1) (c :: t) =
              [] :: (c :: t).take (i + 1) ::
                splitColonWsF f2 ((c :: t).drop (i + 3)) from by
            simp [splitColonWsF, hi]]
          rw [show splitColonWsF (t.length + 1 + 1) (c :: t) =
              [] :: (c :: t).take (i + 1) ::
                splitColonWsF (t.length + 1) ((c :: t).drop (i + 3)) from by
            simp [splitColonWsF, hi]]
          rw [ih f2 (by omega) _ hlen1]
          rw [ih (t.length + 1) (by simp only [List.length_cons] at hs; omega) _ hlen2]

lemma splitDashPatF_eq : ∀ (f : Nat) (s : List Char), s.length < f →
    splitDashPatF f s = splitDashPat s := by
  intro f
  induction f using Nat.strong_induction_on with
  | _ f ih =>
    intro s hs
    cases f with
    | zero => omega
    | succ f2 =>
      cases s with
      | nil => rfl
      | cons c t =>
        cases hi : dashDelimAt t with
        | none =>
          show _ = splitDashPatF ((c :: t).length + 1) (c :: t)
          simp [splitDashPatF, hi]
        | some i =>
          have hb := dashDelimAt_le t i hi
          have hlen1 : ((c :: t).drop (i + 4)).length < f2 := by
            simp only [List.length_drop, List.length_cons]
            simp only [List.length_cons] at hs
            omega
          have hlen2 : ((c :: t).drop (i + 4)).length < t.length + 1 := by
            simp only [List.length_drop, List.length_cons]
            omega
          show _ = splitDashPatF ((c :: t).length + 1) (c :: t)
          simp only [List.length_cons]
          rw [show splitDashPatF (f2 + 1) (c :: t) =
              [] :: (c :: t).take (i + 1) ::
                splitDashPatF f2 ((c :: t).drop (i + 4)) from by
            simp [splitDashPatF, hi]]
          rw [show splitDashPatF (t.length + 1 + 1) (c :: t) =
              [] :: (c :: t).take (i + 1) ::
                splitDashPatF (t.length + 1) ((c :: t).drop (i + 4)) from by
            simp [splitDashPatF, hi]]
          rw [ih f2 (by omega) _ hlen1]
          rw [ih (t.length + 1) (by simp only [List.length_cons] at hs; omega) _ hlen2]

lemma splitColonWs_cons_some (c : Char) (t : List Char) (i : Nat)
    (hi : colonWsAt t = some i) :
    splitColonWs (c :: t) =
      [] :: (c :: t).take (i + 1) :: splitColonWs ((c :: t).drop (i + 3)) := by
  have hb := colonWsAt_le t i hi
  have hlen : ((c :: t).drop (i + 3)).length < t.length + 1 := by
    simp only [List.length_drop, List.length_cons]
    omega
  show splitColonWsF ((c :: t).length + 1) (c :: t) = _
  simp only [List.length_cons]
  rw [show splitColonWsF (t.length + 1 + 1) (c :: t) =
      [] :: (c :: t).take (i + 1) ::
        splitColonWsF (t.length + 1) ((c :: t).drop (i + 3)) from by
    simp [splitColonWsF, hi]]
  rw [splitColonWsF_eq (t.length + 1) _ hlen]

lemma splitColonWs_cons_none (c : Char) (t : List Char) (hi : colonWsAt t = none) :
    splitColonWs (c :: t) = [c :: t] := by
  show splitColonWsF ((c :: t).length + 1) (c :: t) = _
  simp [splitColonWsF, hi]

lemma splitDashPat_cons_some (c : Char) (t : List Char) (i : Nat)
    (hi : dashDelimAt t = some i) :
    splitDashPat (c :: t) =
      [] :: (c :: t).take (i + 1) :: splitDashPat ((c :: t).drop (i + 4)) := by
  have hb := dashDelimAt_le t i hi
  have hlen : ((c :: t).drop (i + 4)).length < t.length + 1 := by
    simp only [List.length_drop, List.length_cons]
    omega
  show splitDashPatF ((c :: t).length + 1) (c :: t) = _
  simp only [List.length_cons]
  rw [show splitDashPatF (t.length + 1 + 1) (c :: t) =
      [] :: (c :: t).take (i + 1) ::
        splitDashPatF (t.length + 1) ((c :: t).drop (i + 4)) from by
    simp [splitDashPatF, hi]]
  rw [splitDashPatF_eq (t.length + 1) _ hlen]

lemma splitDashPat_cons_none (c : Char) (t : List Char) (hi : dashDelimAt t = none) :
    splitDashPat (c :: t) = [c :: t] := by
  show splitDashPatF ((c :: t).length + 1) (c :: t) = _
  simp [splitDashPatF, hi]

lemma intercalate_singleton (x : List Char) : List.intercalate [' '] [x] = x := by
  simp [List.intercalate]

lemma extract_no_delims (m : List Char)
    (hnc : ∀ k < m.length, 1 ≤ k → ¬ mDelim m k)
    (hnd : ∀ k < m.length, 1 ≤ k → ¬ dDelim m k) :
    extractUserMsg m = (group_notification, pyStrip m) := by
  cases m with
  | nil => rfl
  | cons c t =>
    have hcn : colonWsAt t = none := by
      cases hcw : colonWsAt t with
      | none => rfl
      | some i =>
        exfalso
        obtain ⟨hd, _⟩ := (colonWsAt_spec t).1 i hcw
        have h2 : mDelim (c :: t) (i + 1) := (mDelim_cons c t i).mpr hd
        exact hnc (i + 1) (by have := h2.1; omega) (by omega) h2
    have hdn : dashDelimAt t = none := by
      cases hdw : dashDelimAt t with
      | none => rfl
      | some i =>
        exfalso
        obtain ⟨hd, _⟩ := (dashDelimAt_spec t).1 i hdw
        have h2 : dDelim (c :: t) (i + 1) := (dDelim_cons c t i).mpr hd
        exact hnd (i + 1) (by have := h2.1; omega) (by omega) h2
    unfold extractUserMsg
    rw [splitColonWs_cons_none c t hcn, splitDashPat_cons_none c t hdn]

lemma preprocessCore_some_dates (flex : List Char → Option Timestamp)
    (data : List Char) (df : List Record)
    (h : preprocessCore flex data = Except.ok (some df)) :
    ∀ r ∈ df, r.date.isSome = true := by
  cases hs : splitStage (detectGrammar data).1 data with
  | none => simp [preprocessCore, hs] at h
  | some p =>
    obtain ⟨msgs, dts⟩ := p
    by_cases hlen : msgs.length = dts.length
    · cases hd : dateStage flex (msgs.zip dts) with
      | none => simp [preprocessCore, hs, hlen, hd] at h
      | some rows2 =>
        by_cases he : rows2.isEmpty
        · simp [preprocessCore, hs, hlen, hd, he] at h
        · simp [preprocessCore, hs, hlen, hd, he] at h
          unfold validate at h
          by_cases hv : ((rows2.map mkRecord).filter fun r => r.date.isSome).length < 2
          · rw [if_pos hv] at h; simp at h
          · rw [if_neg hv] at h
            injection h with h3
            intro r hr
            rw [← h3] at hr
            exact (List.mem_filter.mp hr).2
    · simp [preprocessCore, hs, hlen] at h

/-- Claim C9 (counterexample): the claim asserts that the body of every
record of a successfully returned dataset is a non-empty string, but the
transcript `chatEmptyBody` is processed successfully into two records
whose second body is the empty string — validation only drops null
fields, and an empty string is not null. -/
theorem validated_fields_counterexample :
    (preprocess flexNone chatEmptyBody).map (fun df => df.map Record.message) =
      some ["hi\n", ""] := by
  decide

/-- Claim C9 (amended): in every record of every successfully returned
dataset the timestamp field is non-null (validation keeps exactly the
rows whose timestamp is non-null); the body field is a string that is
never null but may be empty. -/
theorem validated_record_fields (flex : List Char → Option Timestamp)
    (data : String) (df : List Record)
    (h : preprocess flex data = some df) :
    ∀ r ∈ df, r.date.isSome = true := by
  unfold preprocess at h
  cases hc : preprocessCore flex data.data with
  | error e => rw [hc] at h; simp at h
  | ok r =>
    rw [hc] at h
    exact preprocessCore_some_dates flex data.data df (h ▸ hc)

theorem validated_record_fields_witness :
    (((preprocess flexNone chatTwo).getD []).all fun r => r.date.isSome) = true := by
  have h := validated_record_fields flexNone chatTwo
    ((preprocess flexNone chatTwo).getD []) (by decide)
  exact List.all_eq_true.mpr h

/-- Claim C8 (counterexample): the claim asserts the sender field is a
non-empty string in every record of every successfully returned dataset,
but the transcript `chatEmptySender` is processed successfully into two
records whose first sender is the empty string: the extracted sender
"+1 " is reduced to "" by the phone-prefix normalization of line 187. -/
theorem sender_nonempty_counterexample :
    (preprocess flexNone chatEmptySender).map (fun df => df.map Record.user) =
      some ["", "Bob"] := by
  decide

/-- Claim C8 (amended): the extraction stage itself never produces an
empty sender — whenever neither the colon nor the dash pattern matches,
the sender is the sentinel `group_notification` — but the subsequent
phone-prefix normalization can reduce a sender of the form
`+<digits><whitespace>` to the empty string, so the empty string can
appear as the final sender of a returned record. -/
theorem sender_sentinel_amended (m : List Char) :
    ¬ (extractUserMsg m).1 = [] ∧
    ((∀ k < m.length, 1 ≤ k → ¬ mDelim m k) →
     (∀ k < m.length, 1 ≤ k → ¬ dDelim m k) →
     extractUserMsg m = (group_notification, pyStrip m)) := by
  constructor
  · cases m with
    | nil => decide
    | cons c t =>
      cases hi : colonWsAt t with
      | some i =>
        unfold extractUserMsg
        rw [splitColonWs_cons_some c t i hi]
        simp [List.take_succ_cons]
      | none =>
        cases hd : dashDelimAt t with
        | some i =>
          unfold extractUserMsg
          rw [splitColonWs_cons_none c t hi, splitDashPat_cons_some c t i hd]
          simp [List.take_succ_cons]
        | none =>
          unfold extractUserMsg
          rw [splitColonWs_cons_none c t hi, splitDashPat_cons_none c t hd]
          simp [group_notification]
  · exact extract_no_delims m

theorem sender_sentinel_amended_witness :
    extractUserMsg ("call ended".data) =
      (group_notification, pyStrip ("call ended".data)) :=
  (sender_sentinel_amended ("call ended".data)).2 (by decide) (by decide)

/-- Claim C3 (counterexample): on the message "Alice: see: this" the
extraction yields the body " see this", not the remainder "see: this"
asserted by the claim — the splitter consumes every colon-whitespace
delimiter and rejoins the remaining segments with single spaces. -/
theorem sender_body_counterexample :
    extractUserMsg ("Alice: see: this".data) = ("Alice".data, " see this".data) ∧
    ¬ (extractUserMsg ("Alice: see: this".data)).2 = "see: this".data := by
  decide

/-- Claim C3 (amended): if `k0` is the first position (at least 1) of a
colon followed by whitespace, the sender is the text before `k0` and the
body is the remaining colon-split segments rejoined with single spaces —
equal to the plain remainder exactly when no further colon-whitespace
delimiter occurs; failing any colon delimiter, the same holds for the
first space-dash-space delimiter; failing both, the sender is the
sentinel `group_notification` and the body the full trimmed line. -/
theorem sender_body_precedence (m : List Char) :
    (∀ k0, 1 ≤ k0 → mDelim m k0 → (∀ j < k0, 1 ≤ j → ¬ mDelim m j) →
      (extractUserMsg m).1 = m.take k0 ∧
      (extractUserMsg m).2 = List.intercalate [' '] ((splitColonWs m).drop 2) ∧
      ((∀ j < m.length, k0 < j → ¬ mDelim m j) →
        (extractUserMsg m).2 = m.drop (k0 + 2))) ∧
    ((∀ k < m.length, 1 ≤ k → ¬ mDelim m k) →
      ∀ k0, 1 ≤ k0 → dDelim m k0 → (∀ j < k0, 1 ≤ j → ¬ dDelim m j) →
      (extractUserMsg m).1 = m.take k0 ∧
      (extractUserMsg m).2 = List.intercalate [' '] ((splitDashPat m).drop 2) ∧
      ((∀ j < m.length, k0 < j → ¬ dDelim m j) →
        (extractUserMsg m).2 = m.drop (k0 + 3))) ∧
    ((∀ k < m.length, 1 ≤ k → ¬ mDelim m k) →
     (∀ k < m.length, 1 ≤ k → ¬ dDelim m k) →
      extractUserMsg m = (group_notification, pyStrip m)) := by
  refine ⟨?_, ?_, extract_no_delims m⟩
  · intro k0 hk01 hdk hlk
    cases m with
    | nil =>
      exfalso
      have := hdk.1
      simp at this
    | cons c t =>
      cases hi : colonWsAt t with
      | none =>
        exfalso
        cases k0 with
        | zero => omega
        | succ k2 => exact (colonWsAt_spec t).2 hi k2 ((mDelim_cons c t k2).mp hdk)
      | some i =>
        obtain ⟨hdel, hleast⟩ := (colonWsAt_spec t).1 i hi
        have hk0 : k0 = i + 1 := by
          have hmi : mDelim (c :: t) (i + 1) := (mDelim_cons c t i).mpr hdel
          have h1 : ¬ (i + 1 < k0) := by
            intro hlt
            exact hlk (i + 1) hlt (by omega) hmi
          have h2 : ¬ (k0 < i + 1) := by
            intro hlt
            cases k0 with
            | zero => omega
            | succ k2 => exact hleast k2 (by omega) ((mDelim_cons c t k2).mp hdk)
          omega
        subst hk0
        have hsplit := splitColonWs_cons_some c t i hi
        have hx : extractUserMsg (c :: t) =
            ((c :: t).take (i + 1),
             List.intercalate [' '] (splitColonWs ((c :: t).drop (i + 3)))) := by
          unfold extractUserMsg
          rw [hsplit]
        refine ⟨by rw [hx], by rw [hx, hsplit]; rfl, ?_⟩
        intro hno
        rw [hx, show i + 1 + 2 = i + 3 from rfl]
        cases hs2 : (c :: t).drop (i + 3) with
        | nil => rfl
        | cons c2 t2 =>
          have hnone : colonWsAt t2 = none := by
            cases hq : colonWsAt t2 with
            | none => rfl
            | some q =>
              exfalso
              obtain ⟨hqd, _⟩ := (colonWsAt_spec t2).1 q hq
              have h2 : mDelim (c2 :: t2) (q + 1) := (mDelim_cons c2 t2 q).mpr hqd
              rw [← hs2] at h2
              have h3 : mDelim (c :: t) ((i + 3) + (q + 1)) :=
                (mDelim_drop (i + 3) (c :: t) (q + 1)).mp h2
              exact hno ((i + 3) + (q + 1)) (by have := h3.1; omega) (by omega) h3
          show ([' '].intercalate (splitColonWs (c2 :: t2))) = c2 :: t2
          rw [splitColonWs_cons_none c2 t2 hnone, intercalate_singleton]
  · intro hnc k0 hk01 hdk hlk
    cases m with
    | nil =>
      exfalso
      have := hdk.1
      simp at this
    | cons c t =>
      have hcn : colonWsAt t = none := by
        cases hcw : colonWsAt t with
        | none => rfl
        | some i =>
          exfalso
          obtain ⟨hd, _⟩ := (colonWsAt_spec t).1 i hcw
          have h2 : mDelim (c :: t) (i + 1) := (mDelim_cons c t i).mpr hd
          exact hnc (i + 1) (by have := h2.1; omega) (by omega) h2
      cases hdw : dashDelimAt t with
      | none =>
        exfalso
        cases k0 with
        | zero => omega
        | succ k2 => exact (dashDelimAt_spec t).2 hdw k2 ((dDelim_cons c t k2).mp hdk)
      | some i =>
        obtain ⟨hdel, hleast⟩ := (dashDelimAt_spec t).1 i hdw
        have hk0 : k0 = i + 1 := by
          have hmi : dDelim (c :: t) (i + 1) := (dDelim_cons c t i).mpr hdel
          have h1 : ¬ (i + 1 < k0) := by
            intro hlt
            exact hlk (i + 1) hlt (by omega) hmi
          have h2 : ¬ (k0 < i + 1) := by
            intro hlt
            cases k0 with
            | zero => omega
            | succ k2 => exact hleast k2 (by omega) ((dDelim_cons c t k2).mp hdk)
          omega
        subst hk0
        have hsplit := splitDashPat_cons_some c t i hdw
        have hx : extractUserMsg (c :: t) =
            ((c :: t).take (i + 1),
             List.intercalate [' '] (splitDashPat ((c :: t).drop (i + 4)))) := by
          unfold extractUserMsg
          rw [splitColonWs_cons_none c t hcn, hsplit]
        refine ⟨by rw [hx], by rw [hx, hsplit]; rfl, ?_⟩
        intro hno
        rw [hx, show i + 1 + 3 = i + 4 from rfl]
        cases hs2 : (c :: t).drop (i + 4) with
        | nil => rfl
        | cons c2 t2 =>
          have hnone : dashDelimAt t2 = none := by
            cases hq : dashDelimAt t2 with
            | none => rfl
            | some q =>
              exfalso
              obtain ⟨hqd, _⟩ := (dashDelimAt_spec t2).1 q hq
              have h2 : dDelim (c2 :: t2) (q + 1) := (dDelim_cons c2 t2 q).mpr hqd
              rw [← hs2] at h2
              have h3 : dDelim (c :: t) ((i + 4) + (q + 1)) :=
                (dDelim_drop (i + 4) (c :: t) (q + 1)).mp h2
              exact hno ((i + 4) + (q + 1)) (by have := h3.1; omega) (by omega) h3
          show ([' '].intercalate (splitDashPat (c2 :: t2))) = c2 :: t2
          rw [splitDashPat_cons_none c2 t2 hnone, intercalate_singleton]

theorem sender_body_precedence_witness :
    (extractUserMsg ("Bob: yo".data)).1 = "Bob".data ∧
    (extractUserMsg ("Bob: yo".data)).2 = "yo".data := by
  obtain ⟨h1, _, h3⟩ := (sender_body_precedence ("Bob: yo".data)).1 3
    (by decide) (by decide) (by decide)
  exact ⟨h1.trans (by decide), (h3 (by decide)).trans (by decide)⟩

/-- Claim C4: the hour-to-period-bucket function is total and
deterministic on every integer hour 0-23 and returns exactly the labels
of the specification table ("12AM-1AM" for h = 0, "11AM-12PM" for
h = 11, "12PM-1PM" for h = 12, "11PM-12AM" for h = 23, "{h}AM-{h+1}AM"
for h < 11, "{h-12}PM-{h-11}PM" otherwise). -/
theorem period_bucket_matches_table :
    ∀ h : Nat, h < 24 → periodBucket h = periodBucketSpec h := by
  decide

theorem period_bucket_matches_table_witness :
    periodBucket 0 = periodBucketSpec 0 :=
  period_bucket_matches_table 0 (by decide)

/-- Claim C7 (counterexample): on the sender text "+1 555 1234 Alice"
the normalization of line 187 yields "555 1234 Alice", not the "Alice"
the claim asserts: the pattern removes only the `+`, the digit run "1"
and one whitespace character. -/
theorem phone_strip_counterexample :
    String.mk (normalizeUser ("+1 555 1234 Alice".data)) = "555 1234 Alice" ∧
    ¬ String.mk (normalizeUser ("+1 555 1234 Alice".data)) = "Alice" := by
  decide

/-- Claim C7 (amended): stripping the leading international phone-number
prefix `+<digits><one whitespace>` from a sender of that shape leaves
exactly the text after the single whitespace character, so
"+1 555 1234 Alice" becomes "555 1234 Alice". -/
theorem phone_strip_amended (d : List Char) (w : Char) (rest : List Char)
    (h1 : d ≠ []) (h2 : ∀ c ∈ d, c.isDigit = true) (h3 : pySpace w = true) :
    normalizeUser ('+' :: (d ++ w :: rest)) = rest := by
  have hw : w.isDigit = false := pySpace_not_digit w h3
  have htw : (d ++ w :: rest).takeWhile Char.isDigit = d :=
    takeWhile_all_append Char.isDigit d w rest h2 hw
  have hdrop : (d ++ w :: rest).drop d.length = w :: rest := List.drop_left d (w :: rest)
  have hlen : 0 < d.length := List.length_pos.mpr h1
  simp only [normalizeUser, if_pos rfl, htw, hdrop]
  simp [h3, hlen]

theorem phone_strip_amended_witness :
    normalizeUser ("+1 555 1234 Alice".data) = "555 1234 Alice".data :=
  phone_strip_amended "1".data ' ' "555 1234 Alice".data (by decide) (by decide)
    (by decide)

end WhatsAppChat
